import Mathlib

/-!
Shallow embedding of the `pretty_simple` pretty-printing library
(`src/doc.rs` and `src/parenable.rs`).

Modelling conventions:
* The Rust `Doc(Arc<InnerDoc>)` indirection is transparent: the inductive
  `Doc` below corresponds to `InnerDoc`, and the `Doc` methods become
  functions on it.  Structural sharing via `Arc` does not affect values.
* Rust `String` is modelled by Lean `String`; string length (`String::len`,
  byte length in Rust) is modelled by `String.length` (character count) —
  the two agree on all the ASCII text appearing in the development, and the
  code uses one single length notion consistently for both the stored
  `Text.len` fields and the output-buffer length, which the model preserves.
* `usize` is modelled by `Nat` (the code performs no subtraction and no
  overflow-relevant arithmetic).
* The iterative `render` loop (`while let Some(..) = todos.pop()`) is
  modelled by a single-iteration `step` function on the loop state, iterated
  with fuel.  Each loop iteration removes exactly one unit of total tree
  size from the work list (proved in `step_sizeSum` below), so fuel equal to
  the document's size runs the loop to completion exactly as the Rust
  `while` loop does; `renderFuel_congr` shows the result does not depend on
  the fuel as long as it is sufficient.
-/

namespace PrettySimple

/-- `RenderInfo` from `doc.rs`: the per-work-item rendering context. -/
structure RenderInfo where
  flatmode : Bool
  nest : Nat
  dist_next_newline : Nat
  line_width : Nat
deriving DecidableEq, Repr

/-- `RenderInfo::new`. -/
def RenderInfo.new (flatmode : Bool) (nest : Nat) (dist_next_newline : Nat)
    (line_width : Nat) : RenderInfo :=
  ⟨flatmode, nest, dist_next_newline, line_width⟩

/-- `InnerDoc` from `doc.rs` (the `Doc(Arc<InnerDoc>)` wrapper is
transparent in the model).  `Concat`, `Nest` and `Group` carry the cached
metrics `has_newline`, `dist_newline`, `flat_len` exactly as in the source. -/
inductive Doc : Type where
  | Nil : Doc
  | Newline : Doc
  | NewlineZero : Doc
  | Text (s : String) (len : Nat) : Doc
  | Concat (lhs rhs : Doc) (has_newline : Bool) (dist_newline : Nat) (flat_len : Nat) : Doc
  | Nest (nest : Nat) (doc : Doc) (has_newline : Bool) (dist_newline : Nat) (flat_len : Nat) : Doc
  | Group (doc : Doc) (has_newline : Bool) (dist_newline : Nat) (flat_len : Nat) : Doc
deriving DecidableEq, Repr

/-- `Doc::get_has_newline`. -/
def Doc.get_has_newline : Doc → Bool
  | .Nil => false
  | .Newline => true
  | .NewlineZero => true
  | .Concat _ _ has_newline _ _ => has_newline
  | .Nest _ _ has_newline _ _ => has_newline
  | .Group _ has_newline _ _ => has_newline
  | .Text _ _ => false

/-- `Doc::get_dist_newline`. -/
def Doc.get_dist_newline : Doc → Nat
  | .Concat _ _ _ dist_newline _ => dist_newline
  | .Nest _ _ _ dist_newline _ => dist_newline
  | .Group _ _ dist_newline _ => dist_newline
  | .Text _ len => len
  | _ => 0

/-- `Doc::get_flat_len`. -/
def Doc.get_flat_len : Doc → Nat
  | .Concat _ _ _ _ flat_len => flat_len
  | .Nest _ _ _ _ flat_len => flat_len
  | .Group _ _ _ flat_len => flat_len
  | .Text _ len => len
  | .Newline => 1
  | _ => 0

/-- `Doc::nil`. -/
def Doc.nil : Doc := .Nil

/-- `Doc::text` (the `len` field is the text's measured length). -/
def Doc.text (s : String) : Doc := .Text s s.length

/-- `Doc::nest`: wraps in `Nest`, copying the three metrics from the inner
document unchanged. -/
def Doc.nest (d : Doc) (n : Nat) : Doc :=
  .Nest n d d.get_has_newline d.get_dist_newline d.get_flat_len

/-- `Doc::concat`: builds `Concat`, deriving the three metrics from the two
children exactly as in the source. -/
def Doc.concat (a : Doc) (other : Doc) : Doc :=
  .Concat a other
    (a.get_has_newline || other.get_has_newline)
    (if a.get_has_newline then a.get_dist_newline
     else a.get_dist_newline + other.get_dist_newline)
    (a.get_flat_len + other.get_flat_len)

/-- `Doc::group`: wraps in `Group`, copying the three metrics from the inner
document unchanged. -/
def Doc.group (d : Doc) : Doc :=
  .Group d d.get_has_newline d.get_dist_newline d.get_flat_len

/-- `Doc::line`. -/
def Doc.line : Doc := .Newline

/-- `Doc::newline`. -/
def Doc.newline : Doc := .Newline

/-- `Doc::newline_zero`. -/
def Doc.newline_zero : Doc := .NewlineZero

/-- `Doc::concat_newline`. -/
def Doc.concat_newline (a : Doc) (other : Doc) : Doc :=
  (a.concat .Newline).concat other

/-- `Doc::concat_space`. -/
def Doc.concat_space (a : Doc) (other : Doc) : Doc :=
  (a.concat (Doc.text " ")).concat other

/-- `Doc::surround_paren`. -/
def Doc.surround_paren (a : Doc) : Doc :=
  ((Doc.text "(").concat a).concat (Doc.text ")")

/-- `word_wrap_val` from `doc.rs`, with the iterator modelled as a list:
the fold joins each later element to the accumulator via
`acc.concat(Doc::line().concat(elem).group())`. -/
def word_wrap_val (s : List Doc) : Doc :=
  match s with
  | [] => Doc.nil
  | hd :: tl => tl.foldl (fun acc elem => acc.concat ((Doc.line.concat elem).group)) hd

/-- `sep` from `doc.rs`: left-associated concatenation of a list. -/
def sep (docs : List Doc) : Doc :=
  match docs with
  | [] => Doc.nil
  | fst :: tl => tl.foldl (fun acc next => acc.concat next) fst

/-- The state of the `render` work loop: the explicit stack `todos`, the
shared end-of-line cursor `eol`, and the shared output buffer `acc`. -/
structure RenderState where
  todos : List (Doc × RenderInfo)
  eol : Nat
  acc : String
deriving DecidableEq, Repr

/-- A run of `n` space characters, as pushed by the broken-newline branch
(`for _ in 0..info.nest { acc.push(' '); }`). -/
def spaces (n : Nat) : String := String.mk (List.replicate n ' ')

/-- One iteration of the `while let Some((doc, info)) = todos.pop()` loop in
`Doc::render`: `none` when the work list is empty (the loop exits), else the
state after processing the popped item.  Each match arm is the corresponding
arm of the Rust `match doc.as_ref()`. -/
def step (s : RenderState) : Option RenderState :=
  match s.todos with
  | [] => none
  | (d, info) :: rest =>
    match d with
    | .Nil => some ⟨rest, s.eol, s.acc⟩
    | .Newline =>
      if info.flatmode then
        some ⟨rest, s.eol, s.acc ++ " "⟩
      else
        -- assert!(!info.flatmode) holds here: the flat case was taken above.
        let acc1 := s.acc ++ "\n"
        let eol1 := acc1.length + info.line_width
        some ⟨rest, eol1, acc1 ++ spaces info.nest⟩
    | .NewlineZero =>
      if info.flatmode then
        some ⟨rest, s.eol, s.acc⟩
      else
        let acc1 := s.acc ++ "\n"
        let eol1 := acc1.length + info.line_width
        some ⟨rest, eol1, acc1 ++ spaces info.nest⟩
    | .Text t _ => some ⟨rest, s.eol, s.acc ++ t⟩
    | .Concat lhs rhs _ _ _ =>
      let lhs_dist_next_newline :=
        if rhs.get_has_newline then rhs.get_dist_newline
        else rhs.get_dist_newline + info.dist_next_newline
      let lhs_info := RenderInfo.new info.flatmode info.nest lhs_dist_next_newline info.line_width
      some ⟨(lhs, lhs_info) :: (rhs, info) :: rest, s.eol, s.acc⟩
    | .Nest n inner _ _ _ =>
      let inner_info := RenderInfo.new info.flatmode (info.nest + n) info.dist_next_newline info.line_width
      some ⟨(inner, inner_info) :: rest, s.eol, s.acc⟩
    | .Group inner _ _ _ =>
      let flat_bool := info.flatmode ||
        decide (s.acc.length + inner.get_flat_len + info.dist_next_newline ≤ s.eol)
      let inner_info := RenderInfo.new flat_bool info.nest info.dist_next_newline info.line_width
      some ⟨(inner, inner_info) :: rest, s.eol, s.acc⟩

/-- Tree size of a document; the work loop's termination measure. -/
def Doc.size : Doc → Nat
  | .Nil => 1
  | .Newline => 1
  | .NewlineZero => 1
  | .Text _ _ => 1
  | .Concat lhs rhs _ _ _ => 1 + lhs.size + rhs.size
  | .Nest _ d _ _ _ => 1 + d.size
  | .Group d _ _ _ => 1 + d.size

/-- Total size of the documents pending on the work list. -/
def sizeSum (l : List (Doc × RenderInfo)) : Nat :=
  (l.map (fun p => p.1.size)).sum

/-- The render loop, iterated with fuel.  With fuel at least `sizeSum
s.todos` this runs the loop to completion (see `step_sizeSum` /
`renderFuel_congr`), matching the Rust `while` loop exactly. -/
def renderFuel : Nat → RenderState → String
  | 0, s => s.acc
  | n + 1, s =>
    match step s with
    | none => s.acc
    | some s2 => renderFuel n s2

/-- `Doc::render`: push the root with `flatmode = false`, `nest = 0`,
`dist_next_newline = 0` and the given `line_width`; initialise
`eol = line_width` and the output buffer empty; run the loop. -/
def Doc.render (d : Doc) (line_width : Nat) : String :=
  renderFuel d.size ⟨[(d, RenderInfo.new false 0 0 line_width)], line_width, ""⟩

/-- `MAX_PRIORITY` from `parenable.rs`. -/
def MAX_PRIORITY : Nat := 1024

/-- `Parenable` from `parenable.rs`: a document with a numeric priority. -/
structure Parenable where
  doc : Doc
  priority : Nat
deriving DecidableEq, Repr

/-- `Parenable::new`. -/
def Parenable.new (doc : Doc) (priority : Nat) : Parenable :=
  ⟨doc, priority⟩

/-- `Parenable::new_max`. -/
def Parenable.new_max (doc : Doc) : Parenable :=
  ⟨doc, MAX_PRIORITY⟩

/-- `Parenable::maybe_surround`: surround with parentheses when the
priority is strictly less than the given target priority. -/
def Parenable.maybe_surround (p : Parenable) (target_priority : Nat) : Doc :=
  if p.priority < target_priority then
    ((Doc.text "(").concat p.doc).concat (Doc.text ")")
  else
    p.doc

/-- Instrumented variant of `step` in which the `assert!(!info.flatmode)` of
the broken `Newline`/`NewlineZero` arm is modelled explicitly:
`Except.error ()` is the assertion firing.  As in the Rust `match`, that arm
is reached only after the flat-mode arms above it declined the item, and the
assertion then re-checks the mode. -/
def stepC (s : RenderState) : Except Unit (Option RenderState) :=
  match s.todos with
  | [] => .ok none
  | (d, info) :: rest =>
    match d with
    | .Nil => .ok (some ⟨rest, s.eol, s.acc⟩)
    | .Newline =>
      if info.flatmode then
        .ok (some ⟨rest, s.eol, s.acc ++ " "⟩)
      else if info.flatmode then
        .error ()
      else
        let acc1 := s.acc ++ "\n"
        .ok (some ⟨rest, acc1.length + info.line_width, acc1 ++ spaces info.nest⟩)
    | .NewlineZero =>
      if info.flatmode then
        .ok (some ⟨rest, s.eol, s.acc⟩)
      else if info.flatmode then
        .error ()
      else
        let acc1 := s.acc ++ "\n"
        .ok (some ⟨rest, acc1.length + info.line_width, acc1 ++ spaces info.nest⟩)
    | .Text t _ => .ok (some ⟨rest, s.eol, s.acc ++ t⟩)
    | .Concat lhs rhs _ _ _ =>
      let lhs_dist_next_newline :=
        if rhs.get_has_newline then rhs.get_dist_newline
        else rhs.get_dist_newline + info.dist_next_newline
      let lhs_info := RenderInfo.new info.flatmode info.nest lhs_dist_next_newline info.line_width
      .ok (some ⟨(lhs, lhs_info) :: (rhs, info) :: rest, s.eol, s.acc⟩)
    | .Nest n inner _ _ _ =>
      let inner_info := RenderInfo.new info.flatmode (info.nest + n) info.dist_next_newline info.line_width
      .ok (some ⟨(inner, inner_info) :: rest, s.eol, s.acc⟩)
    | .Group inner _ _ _ =>
      let flat_bool := info.flatmode ||
        decide (s.acc.length + inner.get_flat_len + info.dist_next_newline ≤ s.eol)
      let inner_info := RenderInfo.new flat_bool info.nest info.dist_next_newline info.line_width
      .ok (some ⟨(inner, inner_info) :: rest, s.eol, s.acc⟩)

/-- The render loop over the instrumented step, propagating an assertion
failure. -/
def renderFuelC : Nat → RenderState → Except Unit String
  | 0, s => .ok s.acc
  | n + 1, s =>
    match stepC s with
    | .error e => .error e
    | .ok none => .ok s.acc
    | .ok (some s2) => renderFuelC n s2

/-- `Doc::render` with the assertion modelled as a possible failure. -/
def renderChecked (d : Doc) (line_width : Nat) : Except Unit String :=
  renderFuelC d.size ⟨[(d, RenderInfo.new false 0 0 line_width)], line_width, ""⟩

/-- Documents produced by the public construction combinators (`nil`,
`text`, `line`/`newline`, `newline_zero`, `concat`, `nest`, `group`); the
remaining public combinators (`concat_newline`, `concat_space`,
`surround_paren`, `sep`, `word_wrap_val`, `Parenable::maybe_surround`) are
compositions of these, so their results also satisfy the predicate. -/
inductive Built : Doc → Prop
  | nil : Built Doc.nil
  | text (s : String) : Built (Doc.text s)
  | line : Built Doc.line
  | newline_zero : Built Doc.newline_zero
  | concat (a b : Doc) : Built a → Built b → Built (a.concat b)
  | nest (d : Doc) (n : Nat) : Built d → Built (d.nest n)
  | group (d : Doc) : Built d → Built (d.group)

/-- Documents built only from `text` (`literal`), `concat` and `group` —
no `line`/`newline_zero` break nodes anywhere. -/
inductive FlatOnly : Doc → Prop
  | text (s : String) : FlatOnly (Doc.text s)
  | concat (a b : Doc) : FlatOnly a → FlatOnly b → FlatOnly (a.concat b)
  | group (d : Doc) : FlatOnly d → FlatOnly (d.group)

/-- The left-to-right concatenation of a document's literal texts. -/
def litcat : Doc → String
  | .Text s _ => s
  | .Concat lhs rhs _ _ _ => litcat lhs ++ litcat rhs
  | .Nest _ d _ _ _ => litcat d
  | .Group d _ _ _ => litcat d
  | _ => ""

/-- The concatenation of the literal texts of all documents pending on a
work list. -/
def stackLit : List (Doc × RenderInfo) → String
  | [] => ""
  | p :: t => litcat p.1 ++ stackLit t

/-- Every document has positive size. -/
theorem Doc.size_pos (d : Doc) : 0 < d.size := by
  cases d <;> simp [Doc.size]

/-- Each loop iteration removes exactly one unit of pending tree size:
the loop variant for `Doc::render`, hence the `while` loop terminates for
every document and every line width. -/
theorem step_sizeSum (s s2 : RenderState) (h : step s = some s2) :
    sizeSum s2.todos + 1 = sizeSum s.todos := by
  rcases s with ⟨todos, eol, acc⟩
  match todos with
  | [] => simp [step] at h
  | (d, info) :: rest =>
    cases d <;>
      simp only [step] at h <;>
      (try split at h) <;>
      (rcases Option.some.inj h with rfl) <;>
      simp [sizeSum, Doc.size] <;>
      omega

/-- Fuel irrelevance: any two sufficient fuels give the same result, so the
fuel-based loop computes the Rust `while` loop's unique result. -/
theorem renderFuel_congr (n m : Nat) (s : RenderState)
    (hn : sizeSum s.todos ≤ n) (hm : sizeSum s.todos ≤ m) :
    renderFuel n s = renderFuel m s := by
  induction n generalizing m s with
  | zero =>
    have h0 : sizeSum s.todos = 0 := Nat.le_zero.mp hn
    have hnil : s.todos = [] := by
      rcases s with ⟨todos, eol, acc⟩
      cases todos with
      | nil => rfl
      | cons p t =>
        exfalso
        have := Doc.size_pos p.1
        simp [sizeSum] at h0
        omega
    cases m with
    | zero => rfl
    | succ m =>
      have hstep : step s = none := by
        rcases s with ⟨todos, eol, acc⟩
        simp only at hnil
        subst hnil
        rfl
      simp [renderFuel, hstep]
  | succ n ih =>
    cases m with
    | zero =>
      have h0 : sizeSum s.todos = 0 := Nat.le_zero.mp hm
      have hnil : s.todos = [] := by
        rcases s with ⟨todos, eol, acc⟩
        cases todos with
        | nil => rfl
        | cons p t =>
          exfalso
          have := Doc.size_pos p.1
          simp [sizeSum] at h0
          omega
      have hstep : step s = none := by
        rcases s with ⟨todos, eol, acc⟩
        simp only at hnil
        subst hnil
        rfl
      simp [renderFuel, hstep]
    | succ m =>
      cases hstep : step s with
      | none => simp [renderFuel, hstep]
      | some s2 =>
        have hsz := step_sizeSum s s2 hstep
        simp only [renderFuel, hstep]
        exact ih m s2 (by omega) (by omega)

/-- The instrumented step never fails and agrees with `step`: the broken
`Newline`/`NewlineZero` arm is only reached with `flatmode = false`, so the
assertion cannot fire. -/
theorem stepC_eq (s : RenderState) : stepC s = Except.ok (step s) := by
  rcases s with ⟨todos, eol, acc⟩
  match todos with
  | [] => rfl
  | (d, info) :: rest =>
    cases d <;> simp only [stepC, step] <;> (try split) <;> simp

/-- The instrumented loop never fails and computes the same string. -/
theorem renderFuelC_eq (n : Nat) (s : RenderState) :
    renderFuelC n s = Except.ok (renderFuel n s) := by
  induction n generalizing s with
  | zero => rfl
  | succ n ih =>
    simp only [renderFuelC, renderFuel, stepC_eq]
    cases step s with
    | none => rfl
    | some s2 => exact ih s2

/-- For break-free documents the cached flat length is the length of the
concatenated literal texts. -/
theorem flatOnly_flat_len (d : Doc) (h : FlatOnly d) :
    d.get_flat_len = (litcat d).length := by
  induction h with
  | text s => rfl
  | concat a b _ _ iha ihb =>
    show a.get_flat_len + b.get_flat_len = (litcat a ++ litcat b).length
    rw [String.length_append, iha, ihb]
  | group d _ ihd =>
    show d.get_flat_len = (litcat d).length
    exact ihd

/-- Running the loop on a work list of break-free documents appends exactly
their literal texts, for any end-of-line cursor and any sufficient fuel. -/
theorem renderFuel_flatOnly (n : Nat) :
    ∀ (l : List (Doc × RenderInfo)) (eol : Nat) (acc : String),
      (∀ p ∈ l, FlatOnly p.1) → sizeSum l ≤ n →
      renderFuel n ⟨l, eol, acc⟩ = acc ++ stackLit l := by
  induction n with
  | zero =>
    intro l eol acc hF hsz
    have hnil : l = [] := by
      cases l with
      | nil => rfl
      | cons p t =>
        exfalso
        have := Doc.size_pos p.1
        simp [sizeSum] at hsz
        omega
    subst hnil
    simp [renderFuel, stackLit, String.append_empty]
  | succ n ih =>
    intro l eol acc hF hsz
    cases l with
    | nil => simp [renderFuel, step, stackLit, String.append_empty]
    | cons p t =>
      rcases p with ⟨d, info⟩
      have hFd : FlatOnly d := hF (d, info) (by simp)
      have hFt : ∀ q ∈ t, FlatOnly q.1 := fun q hq => hF q (by simp [hq])
      cases hFd with
      | text s =>
        simp only [renderFuel, step, Doc.text]
        rw [ih t eol (acc ++ s) hFt
          (by simp [sizeSum, Doc.text, Doc.size] at hsz ⊢; omega)]
        simp [stackLit, litcat, Doc.text, String.append_assoc]
      | concat a b ha hb =>
        simp only [renderFuel, step, Doc.concat]
        rw [ih ((a, RenderInfo.new info.flatmode info.nest
                (if b.get_has_newline then b.get_dist_newline
                 else b.get_dist_newline + info.dist_next_newline) info.line_width) ::
              (b, info) :: t) eol acc
          (by
            intro q hq
            rcases List.mem_cons.mp hq with rfl | hq2
            · exact ha
            · rcases List.mem_cons.mp hq2 with rfl | hq3
              · exact hb
              · exact hFt q hq3)
          (by simp [sizeSum, Doc.concat, Doc.size] at hsz ⊢; omega)]
        simp [stackLit, litcat, Doc.concat, String.append_assoc]
      | group a ha =>
        simp only [renderFuel, step, Doc.group]
        rw [ih ((a, RenderInfo.new
                (info.flatmode ||
                  decide (acc.length + a.get_flat_len + info.dist_next_newline ≤ eol))
                info.nest info.dist_next_newline info.line_width) :: t) eol acc
          (by
            intro q hq
            rcases List.mem_cons.mp hq with rfl | hq2
            · exact ha
            · exact hFt q hq2)
          (by simp [sizeSum, Doc.group, Doc.size] at hsz ⊢; omega)]
        simp [stackLit, litcat, Doc.group]

/-- C1: when a `Group` work item is popped, the flat mode for its inner
document is computed as
`flat_mode || (output length + flat_len(inner) + dist_next_newline ≤ eol)`
and the inner document is pushed with that mode and unchanged
nesting/distance/line width (first conjunct); and flat mode is inherited
monotonically downward: every work item spawned by processing a flat-mode
item is itself in flat mode (second conjunct), so a nested `Group` popped in
flat mode decides `true || _ = true` and can never switch back to broken.
Each work item is popped exactly once by `step`, so the decision for a given
`Group` occurrence is made once and never revisited. -/
theorem group_flat_mode_step :
    (∀ (inner : Doc) (hb : Bool) (dn fl : Nat) (info : RenderInfo)
       (rest : List (Doc × RenderInfo)) (eol : Nat) (acc : String),
      step ⟨(Doc.Group inner hb dn fl, info) :: rest, eol, acc⟩ =
        some ⟨(inner,
                RenderInfo.new
                  (info.flatmode ||
                    decide (acc.length + inner.get_flat_len + info.dist_next_newline ≤ eol))
                  info.nest info.dist_next_newline info.line_width) :: rest,
              eol, acc⟩)
    ∧ (∀ (d : Doc) (info : RenderInfo) (rest : List (Doc × RenderInfo))
         (eol : Nat) (acc : String) (s2 : RenderState),
        info.flatmode = true →
        step ⟨(d, info) :: rest, eol, acc⟩ = some s2 →
        ∀ p ∈ s2.todos, p ∈ rest ∨ p.2.flatmode = true) := by
  constructor
  · intro inner hb dn fl info rest eol acc
    rfl
  · intro d info rest eol acc s2 hflat hstep p hp
    cases d with
    | Nil =>
      simp [step] at hstep
      rcases hstep with rfl
      exact Or.inl hp
    | Newline =>
      simp [step, hflat] at hstep
      rcases hstep with rfl
      exact Or.inl hp
    | NewlineZero =>
      simp [step, hflat] at hstep
      rcases hstep with rfl
      exact Or.inl hp
    | Text t len =>
      simp [step] at hstep
      rcases hstep with rfl
      exact Or.inl hp
    | Concat lhs rhs hb dn fl =>
      simp [step] at hstep
      rcases hstep with rfl
      rcases List.mem_cons.mp hp with rfl | hp2
      · exact Or.inr hflat
      · rcases List.mem_cons.mp hp2 with rfl | hp3
        · exact Or.inr hflat
        · exact Or.inl hp3
    | Nest n inner hb dn fl =>
      simp [step] at hstep
      rcases hstep with rfl
      rcases List.mem_cons.mp hp with rfl | hp2
      · exact Or.inr hflat
      · exact Or.inl hp2
    | Group inner hb dn fl =>
      simp [step] at hstep
      rcases hstep with rfl
      rcases List.mem_cons.mp hp with rfl | hp2
      · right
        show (info.flatmode || _) = true
        rw [hflat, Bool.true_or]
      · exact Or.inl hp2

/-- C1 witness: a `Group` popped in flat mode spawns a flat-mode item. -/
theorem group_flat_mode_step_witness :
    (Doc.Nil, RenderInfo.new true 0 0 7) ∈ [(Doc.Text "q" 1, RenderInfo.new false 0 0 7)]
    ∨ (RenderInfo.new true 0 0 7).flatmode = true :=
  group_flat_mode_step.2 (Doc.Group Doc.Nil false 0 0) (RenderInfo.new true 0 0 7)
    [(Doc.Text "q" 1, RenderInfo.new false 0 0 7)] 7 ""
    ⟨[(Doc.Nil, RenderInfo.new true 0 0 7), (Doc.Text "q" 1, RenderInfo.new false 0 0 7)], 7, ""⟩
    rfl rfl (Doc.Nil, RenderInfo.new true 0 0 7) (by simp)

/-- C2: `concat` derives the three cached metrics from its children:
`has_newline` is the disjunction, `dist_newline` is the left distance when
the left side has a break and the sum otherwise, and `flat_len` is the
sum. -/
theorem concat_metrics (A B : Doc) :
    (A.concat B).get_has_newline = (A.get_has_newline || B.get_has_newline)
    ∧ (A.concat B).get_dist_newline =
        (if A.get_has_newline then A.get_dist_newline
         else A.get_dist_newline + B.get_dist_newline)
    ∧ (A.concat B).get_flat_len = A.get_flat_len + B.get_flat_len :=
  ⟨rfl, rfl, rfl⟩

/-- C4: popping a `Line` (`Newline`) or `LineZero` (`NewlineZero`) work item
in broken mode appends a newline, then exactly `nest` space characters, and
resets the end-of-line cursor to the output length right after the newline
(the start of the new line) plus `line_width`. -/
theorem broken_newline_step (info : RenderInfo) (rest : List (Doc × RenderInfo))
    (eol : Nat) (acc : String) (h : info.flatmode = false) :
    step ⟨(Doc.Newline, info) :: rest, eol, acc⟩ =
      some ⟨rest, acc.length + 1 + info.line_width, (acc ++ "\n") ++ spaces info.nest⟩
    ∧ step ⟨(Doc.NewlineZero, info) :: rest, eol, acc⟩ =
      some ⟨rest, acc.length + 1 + info.line_width, (acc ++ "\n") ++ spaces info.nest⟩
    ∧ (spaces info.nest).length = info.nest := by
  refine ⟨?_, ?_, ?_⟩
  · simp [step, h, String.length_append]
    rfl
  · simp [step, h, String.length_append]
    rfl
  · simp [spaces, String.length, List.length_replicate]

/-- C4 witness: a broken `Newline` with nesting 2 and line width 5. -/
theorem broken_newline_step_witness :
    step ⟨[(Doc.Newline, RenderInfo.new false 2 0 5)], 9, "ab"⟩ = some ⟨[], 8, "ab\n  "⟩
    ∧ step ⟨[(Doc.NewlineZero, RenderInfo.new false 2 0 5)], 9, "ab"⟩ = some ⟨[], 8, "ab\n  "⟩
    ∧ (spaces 2).length = 2 := by
  have h := broken_newline_step (RenderInfo.new false 2 0 5) [] 9 "ab" rfl
  refine ⟨h.1.trans (by decide), h.2.1.trans (by decide), h.2.2⟩

/-- C5: the render loop terminates for every document and every line width
(each iteration removes exactly one unit of pending tree size, first
conjunct), and the `assert!(!info.flatmode)` in the broken
`Newline`/`NewlineZero` arm can never fire: the instrumented renderer, in
which the assertion is a possible `Except.error`, always succeeds and
returns exactly `render`'s string (second conjunct). -/
theorem render_total_no_assert :
    (∀ s s2 : RenderState, step s = some s2 → sizeSum s2.todos + 1 = sizeSum s.todos)
    ∧ (∀ (d : Doc) (line_width : Nat),
        renderChecked d line_width = Except.ok (d.render line_width)) :=
  ⟨step_sizeSum, fun d line_width =>
    renderFuelC_eq d.size ⟨[(d, RenderInfo.new false 0 0 line_width)], line_width, ""⟩⟩

/-- C5 witness: one loop iteration on a singleton work list. -/
theorem render_total_no_assert_witness :
    sizeSum (RenderState.mk [] 3 "").todos + 1 =
      sizeSum (RenderState.mk [(Doc.Nil, RenderInfo.new false 0 0 3)] 3 "").todos :=
  render_total_no_assert.1 ⟨[(Doc.Nil, RenderInfo.new false 0 0 3)], 3, ""⟩ ⟨[], 3, ""⟩ rfl

/-- C7: `nest` (`indent`) and `group` are metric-transparent: they copy
`has_newline`, `dist_newline` and `flat_len` unchanged from the inner
document. -/
theorem nest_group_metric_transparent (D : Doc) (n : Nat) :
    (D.nest n).get_has_newline = D.get_has_newline
    ∧ (D.nest n).get_dist_newline = D.get_dist_newline
    ∧ (D.nest n).get_flat_len = D.get_flat_len
    ∧ D.group.get_has_newline = D.get_has_newline
    ∧ D.group.get_dist_newline = D.get_dist_newline
    ∧ D.group.get_flat_len = D.get_flat_len :=
  ⟨rfl, rfl, rfl, rfl, rfl, rfl⟩

/-- C3 counterexample: `group(literal("ab") ⊕ line ⊕ literal("cd"))` has
flat length 5, so at line width 4 — which the claim covers with `w ≥ 4`,
predicting `"ab cd"` — the fit test `0 + 5 + 0 ≤ 4` fails and the code
renders broken. -/
theorem fits_preference_counterexample :
    (((Doc.text "ab").concat Doc.line).concat (Doc.text "cd")).group.render 4 = "ab\ncd"
    ∧ (((Doc.text "ab").concat Doc.line).concat (Doc.text "cd")).group.render 4 ≠ "ab cd" := by
  constructor <;> decide

/-- C3 amended: the flat rendering `"ab cd"` is 5 characters wide, so the
threshold is 5, not 4: `render` yields `"ab cd"` for every width `w ≥ 5`
and `"ab\ncd"` (no indentation spaces after the newline) for every
`w < 5`. -/
theorem fits_preference_amended (w : Nat) :
    (5 ≤ w →
      (((Doc.text "ab").concat Doc.line).concat (Doc.text "cd")).group.render w = "ab cd")
    ∧ (w < 5 →
      (((Doc.text "ab").concat Doc.line).concat (Doc.text "cd")).group.render w = "ab\ncd") := by
  constructor
  · intro h
    have hd : decide ((0:Nat) + (("ab".length + 1) + "cd".length) + 0 ≤ w) = true := by
      have e1 : ("ab" : String).length = 2 := rfl
      have e2 : ("cd" : String).length = 2 := rfl
      rw [e1, e2]
      exact decide_eq_true (by omega)
    simp only [Doc.render, Doc.group, Doc.concat, Doc.text, Doc.line, Doc.size,
      Doc.get_flat_len, Doc.get_has_newline, Doc.get_dist_newline,
      RenderInfo.new, renderFuel, step, String.length_empty, hd,
      Bool.false_or, Bool.or_false, if_true, ite_true, eq_self_iff_true]
    rfl
  · intro h
    have hd : decide ((0:Nat) + (("ab".length + 1) + "cd".length) + 0 ≤ w) = false := by
      have e1 : ("ab" : String).length = 2 := rfl
      have e2 : ("cd" : String).length = 2 := rfl
      rw [e1, e2]
      exact decide_eq_false (by omega)
    simp only [Doc.render, Doc.group, Doc.concat, Doc.text, Doc.line, Doc.size,
      Doc.get_flat_len, Doc.get_has_newline, Doc.get_dist_newline,
      RenderInfo.new, renderFuel, step, String.length_empty, hd,
      Bool.false_or, Bool.or_false, if_false, ite_false, Bool.false_eq_true]
    rfl

/-- C3 amended, witness: both thresholds at the boundary widths 5 and 4. -/
theorem fits_preference_amended_witness :
    (((Doc.text "ab").concat Doc.line).concat (Doc.text "cd")).group.render 5 = "ab cd"
    ∧ (((Doc.text "ab").concat Doc.line).concat (Doc.text "cd")).group.render 4 = "ab\ncd" :=
  ⟨(fits_preference_amended 5).1 (by decide), (fits_preference_amended 4).2 (by decide)⟩

/-- C6: `word_wrap_val` folds its input so each element after the first is
joined to the accumulator as `acc.concat(line().concat(elem).group())`
(first conjunct, literally the fold performed by the source); and at width
3 — which fits only the first join flat — `word_wrap_val [x, y, z]` renders
as `"x y\nz"`: flat at the first join, broken exactly at the second join
and nowhere else (second conjunct). -/
theorem word_wrap_fold_and_independence :
    (∀ (hd : Doc) (tl : List Doc),
      word_wrap_val (hd :: tl) =
        tl.foldl (fun acc elem => acc.concat ((Doc.line.concat elem).group)) hd)
    ∧ (word_wrap_val [Doc.text "x", Doc.text "y", Doc.text "z"]).render 3 = "x y\nz" :=
  ⟨fun hd tl => rfl, by decide⟩

/-- C8: a document built only from `text`, `concat` and `group` renders
identically at every line width, and the result is the left-to-right
concatenation of its literal texts, whose length is the document's
`flat_len`. -/
theorem flat_only_render_width_independent (D : Doc) (hD : FlatOnly D) (w1 w2 : Nat) :
    D.render w1 = D.render w2
    ∧ D.render w1 = litcat D
    ∧ (litcat D).length = D.get_flat_len := by
  have key : ∀ w : Nat, D.render w = litcat D := by
    intro w
    have h := renderFuel_flatOnly D.size [(D, RenderInfo.new false 0 0 w)] w ""
      (by
        intro p hp
        rcases List.mem_singleton.mp hp with rfl
        exact hD)
      (by simp [sizeSum])
    rw [Doc.render, h]
    simp [stackLit, String.append_empty, String.empty_append]
  exact ⟨(key w1).trans (key w2).symm, key w1, (flatOnly_flat_len D hD).symm⟩

/-- C8 witness: a two-literal group at widths 0 and 9. -/
theorem flat_only_render_width_independent_witness :
    ((Doc.text "hi").concat (Doc.text "!!")).group.render 0 =
      ((Doc.text "hi").concat (Doc.text "!!")).group.render 9
    ∧ ((Doc.text "hi").concat (Doc.text "!!")).group.render 0 =
      litcat ((Doc.text "hi").concat (Doc.text "!!")).group
    ∧ (litcat ((Doc.text "hi").concat (Doc.text "!!")).group).length =
      ((Doc.text "hi").concat (Doc.text "!!")).group.get_flat_len :=
  flat_only_render_width_independent ((Doc.text "hi").concat (Doc.text "!!")).group
    (FlatOnly.group _ (FlatOnly.concat _ _ (FlatOnly.text "hi") (FlatOnly.text "!!"))) 0 9

/-- C9: `maybe_surround` surrounds the document with literal parentheses
exactly when its priority is strictly less than the target priority and
returns it unchanged otherwise; hence at target priority `p + 1`
parentheses always appear, and at target priority `p` or lower they never
do. -/
theorem maybe_surround_threshold (d : Doc) (p c : Nat) :
    ((Parenable.new d p).maybe_surround c =
      if p < c then ((Doc.text "(").concat d).concat (Doc.text ")") else d)
    ∧ (Parenable.new d p).maybe_surround (p + 1) =
        ((Doc.text "(").concat d).concat (Doc.text ")")
    ∧ (c ≤ p → (Parenable.new d p).maybe_surround c = d) := by
  refine ⟨rfl, ?_, ?_⟩
  · rw [Parenable.maybe_surround]
    exact if_pos (Nat.lt_succ_self p)
  · intro h
    rw [Parenable.maybe_surround]
    exact if_neg (Nat.not_lt.mpr h)

/-- C9 witness: at target priority equal to the document's own priority no
parentheses are added. -/
theorem maybe_surround_threshold_witness :
    (Parenable.new (Doc.text "v") 3).maybe_surround 3 = Doc.text "v" :=
  (maybe_surround_threshold (Doc.text "v") 3 3).2.2 (by decide)

/-- C10: for every document built via the public combinators,
`dist_newline ≤ flat_len`, and when `has_newline` is false the two are
equal. -/
theorem built_dist_le_flat_len (D : Doc) (h : Built D) :
    D.get_dist_newline ≤ D.get_flat_len
    ∧ (D.get_has_newline = false → D.get_dist_newline = D.get_flat_len) := by
  induction h with
  | nil => exact ⟨Nat.le_refl _, fun _ => rfl⟩
  | text s => exact ⟨Nat.le_refl _, fun _ => rfl⟩
  | line =>
    refine ⟨Nat.zero_le _, fun hc => ?_⟩
    exact absurd hc (by decide)
  | newline_zero =>
    refine ⟨Nat.le_refl _, fun hc => ?_⟩
    exact absurd hc (by decide)
  | concat a b _ _ iha ihb =>
    obtain ⟨h1, h1e⟩ := iha
    obtain ⟨h2, h2e⟩ := ihb
    have hd : (a.concat b).get_dist_newline =
        (if a.get_has_newline = true then a.get_dist_newline
         else a.get_dist_newline + b.get_dist_newline) := rfl
    have hf : (a.concat b).get_flat_len = a.get_flat_len + b.get_flat_len := rfl
    have hh : (a.concat b).get_has_newline = (a.get_has_newline || b.get_has_newline) := rfl
    constructor
    · rw [hd, hf]
      cases hA : a.get_has_newline with
      | true =>
        rw [if_pos rfl]
        omega
      | false =>
        rw [if_neg Bool.false_ne_true]
        have e1 := h1e hA
        omega
    · intro hc
      have hh2 : (a.get_has_newline || b.get_has_newline) = false := hh.symm.trans hc
      have hA := (Bool.or_eq_false_iff.mp hh2).1
      have hB := (Bool.or_eq_false_iff.mp hh2).2
      have e1 := h1e hA
      have e2 := h2e hB
      rw [hd, hf, hA, if_neg Bool.false_ne_true]
      omega
  | nest d n _ ihd => exact ihd
  | group d _ ihd => exact ihd

/-- C10 witness: a break-free concatenation of two literals. -/
theorem built_dist_le_flat_len_witness :
    ((Doc.text "ab").concat (Doc.text "c")).get_dist_newline ≤
      ((Doc.text "ab").concat (Doc.text "c")).get_flat_len
    ∧ (((Doc.text "ab").concat (Doc.text "c")).get_has_newline = false →
        ((Doc.text "ab").concat (Doc.text "c")).get_dist_newline =
          ((Doc.text "ab").concat (Doc.text "c")).get_flat_len) :=
  built_dist_le_flat_len ((Doc.text "ab").concat (Doc.text "c"))
    (Built.concat _ _ (Built.text "ab") (Built.text "c"))

end PrettySimple
